import Mathlib

/-!
Verification of the dynamic-array container in src/vector.h.

The container Vector T owns a RawMemory T arena (a raw block of
capacity slots) and a count size of live elements; slots [0, size)
hold constructed values in order, slots [size, capacity) are raw
storage.  We embed the observable state of a container as the list of
its live element values together with the arena capacity, and each
member function as a function on that state, translated clause by
clause from src/vector.h.
-/

namespace VectorSpec

/-- Observable state of a Vector T: data models the live slots
0 up to size-1 in index order (so data.length is the size member) and
cap models the Capacity() of the owned RawMemory arena. -/
structure Vec (α : Type) where
  data : List α
  cap : Nat
deriving Repr, DecidableEq

namespace Vec

/-- Vector(): default construction; the default RawMemory has a null
buffer and capacity 0, and the size member is initialised to 0. -/
def emptyVec : Vec α := ⟨[], 0⟩

/-- Size(): returns the size member. -/
def size (v : Vec α) : Nat := v.data.length

/-- Swap(other): swaps the two arenas and the two size members;
returns the pair (new state of this, new state of other). -/
def swap (a b : Vec α) : Vec α × Vec α := (b, a)

/-- Vector(Vector other): move construction default-constructs this
and then swaps with other; returns (destination, moved-from source). -/
def moveConstruct (src : Vec α) : Vec α × Vec α := swap emptyVec src

/-- Move assignment: the body is Swap(rhs); returns
(new state of this, new state of rhs). -/
def moveAssign (dst src : Vec α) : Vec α × Vec α := swap dst src

/-- Reserve(new_capacity): returns unchanged unless new_capacity
exceeds the arena capacity; otherwise allocates a new arena of exactly
new_capacity slots, transfers the size live elements into it
(MoveDataIfPossibleOrCopyInstead preserves their values), destroys the
old elements and swaps arenas. -/
def reserve (v : Vec α) (newCapacity : Nat) : Vec α :=
  if newCapacity ≤ v.cap then v
  else ⟨v.data, newCapacity⟩

/-- Resize(new_size): first Reserve(new_size); then if new_size is
below the size member, destroys the trailing size - new_size elements,
and if above it, default-constructs new_size - size elements at the
tail (defaultVal stands for a default-initialised T); finally sets the
size member to new_size. -/
def resize (v : Vec α) (defaultVal : α) (newSize : Nat) : Vec α :=
  let v1 := reserve v newSize
  if newSize < v1.data.length then ⟨v1.data.take newSize, v1.cap⟩
  else ⟨v1.data ++ List.replicate (newSize - v1.data.length) defaultVal, v1.cap⟩

/-- EmplaceBack(args): if the size member equals the capacity,
allocates a new arena of temp_size = (size == 0 ? 1 : size * 2) slots,
constructs the new element at offset size, transfers the old elements
to offsets [0, size), destroys them and swaps arenas; otherwise
constructs the new element in place at offset size.  Either way the
size member is then incremented, so the live sequence becomes
data ++ [a]. -/
def emplaceBack (v : Vec α) (a : α) : Vec α :=
  if v.data.length = v.cap then
    ⟨v.data ++ [a], if v.data.length = 0 then 1 else v.data.length * 2⟩
  else
    ⟨v.data ++ [a], v.cap⟩

/-- PushBack(value): forwards to EmplaceBack. -/
def pushBack (v : Vec α) (a : α) : Vec α := emplaceBack v a

/-- PopBack(): asserts size > 0, decrements the size member and
destroys the last live element. -/
def popBack (v : Vec α) : Vec α := ⟨v.data.dropLast, v.cap⟩

/-- A whole program of successive appends: folds EmplaceBack over the
given values starting from a default-constructed vector. -/
def appendAll (vals : List α) : Vec α := vals.foldl emplaceBack emptyVec

/-- InsertWithRealloc(pos, args) on the success path: dist is the
offset of pos from begin; allocates a new arena of
temp_size = (size == 0 ? 1 : size * 2) slots, constructs the new
element at offset dist, transfers the prefix [0, dist) to [0, dist)
and the suffix [dist, size) to [dist + 1, size + 1), destroys the old
elements, swaps arenas and increments the size member; returns the
iterator data + dist, i.e. logical index dist. -/
def insertWithRealloc (v : Vec α) (dist : Nat) (a : α) : Vec α × Nat :=
  (⟨v.data.take dist ++ a :: v.data.drop dist,
    if v.data.length = 0 then 1 else v.data.length * 2⟩, dist)

/-- InsertWithoutRealloc(pos, args): dist is the offset of pos from
begin.  If pos is null or equals end (dist = size), constructs the new
element at end; otherwise constructs at end a move of the last
element, shifts [dist, size - 1) one slot right with move_backward,
and assigns the new value into the opened slot dist.  Increments the
size member and returns logical index dist.  In both branches the net
live sequence is take dist ++ a :: drop dist. -/
def insertWithoutRealloc (v : Vec α) (dist : Nat) (a : α) : Vec α × Nat :=
  if dist = v.data.length then
    (⟨v.data ++ [a], v.cap⟩, dist)
  else
    (⟨v.data.take dist ++ a :: v.data.drop dist, v.cap⟩, dist)

/-- Emplace(pos, args): dispatches on size == Capacity() to
InsertWithRealloc or InsertWithoutRealloc; Insert(pos, value)
forwards here. -/
def emplace (v : Vec α) (dist : Nat) (a : α) : Vec α × Nat :=
  if v.data.length = v.cap then insertWithRealloc v dist a
  else insertWithoutRealloc v dist a

/-- Erase(pos): if begin() == end() (size 0) returns pos unchanged and
does nothing; otherwise moves [dist + 1, size) one slot left onto
[dist, size - 1) and PopBack() destroys the vacated trailing slot,
decrementing the size member; returns pos, i.e. logical index dist. -/
def erase (v : Vec α) (dist : Nat) : Vec α × Nat :=
  if v.data.length = 0 then (v, dist)
  else (⟨v.data.take dist ++ v.data.drop (dist + 1), v.cap⟩, dist)

end Vec

/-- Resource accounting for one reallocating operation, tracking the
freshly allocated arena only: allocs and frees count operator new and
operator delete calls on the new block, ctors and dtors count element
constructions and destructions performed in the new block.  Balanced
teardown of the new arena after a failure means frees = allocs and
dtors = ctors. -/
structure RLog where
  allocs : Nat
  frees : Nat
  ctors : Nat
  dtors : Nat
deriving Repr, DecidableEq

namespace Vec

/-- EmplaceBack(args) with element-operation failures, for an element
type whose transfer is by copy (copy-constructible, move not noexcept,
so MoveDataIfPossibleOrCopyInstead takes the uninitialized_copy_n
branch).  The oracle failAt numbers the fallible constructor calls of
the reallocating branch in program order: call 0 is the placement-new
of the new element at offset size, call j (1 ≤ j ≤ size) is the copy
of old element j - 1 into the new arena; some j with j in range means
that call throws, and the exception propagates to the caller (there is
no try/catch in EmplaceBack).  On a throw at call j ≥ 1,
uninitialized_copy_n destroys the j - 1 copies it made, the new_data
destructor frees the block during unwinding, and the members data_ and
size_ are untouched; the already constructed new element at offset
size is never destroyed.  In the spare-capacity branch the only
fallible call is the placement-new itself (call 0), which constructs
in the old arena, so the log of the new arena stays zero. -/
def emplaceBackE (v : Vec α) (a : α) (failAt : Option Nat) :
    Except (Vec α × RLog) (Vec α × RLog) :=
  let n := v.data.length
  if n = v.cap then
    let tempSize := if n = 0 then 1 else n * 2
    match failAt with
    | some j =>
      if j = 0 then
        Except.error (v, ⟨1, 1, 0, 0⟩)
      else if j ≤ n then
        Except.error (v, ⟨1, 1, j, j - 1⟩)
      else
        Except.ok (⟨v.data ++ [a], tempSize⟩, ⟨1, 0, n + 1, 0⟩)
    | none => Except.ok (⟨v.data ++ [a], tempSize⟩, ⟨1, 0, n + 1, 0⟩)
  else
    match failAt with
    | some 0 => Except.error (v, ⟨0, 0, 0, 0⟩)
    | _ => Except.ok (⟨v.data ++ [a], v.cap⟩, ⟨0, 0, 1, 0⟩)

/-- Reserve(new_capacity) with element-operation failures, for a
copy-transferred element type as in emplaceBackE.  The fallible calls
are the size copies made by MoveDataIfPossibleOrCopyInstead; failAt
numbers them 0 .. size - 1.  On a throw at call k,
uninitialized_copy_n destroys the k copies it made, the new_data
destructor frees the block during unwinding, and data_ and size_ are
untouched, so the container is exactly its pre-call state. -/
def reserveE (v : Vec α) (newCapacity : Nat) (failAt : Option Nat) :
    Except (Vec α × RLog) (Vec α × RLog) :=
  if newCapacity ≤ v.cap then Except.ok (v, ⟨0, 0, 0, 0⟩)
  else
    match failAt with
    | some k =>
      if k < v.data.length then Except.error (v, ⟨1, 1, k, k⟩)
      else Except.ok (⟨v.data, newCapacity⟩, ⟨1, 0, v.data.length, 0⟩)
    | none => Except.ok (⟨v.data, newCapacity⟩, ⟨1, 0, v.data.length, 0⟩)

/-- InsertWithRealloc(pos, args) with element-operation failures, for
a copy-transferred element type as in emplaceBackE.  The fallible
calls of the try block in program order: call 0 is the placement-new
of the new element at offset dist; calls 1 .. dist copy the prefix
elements 0 .. dist - 1; calls dist + 1 .. size copy the suffix
elements dist .. size - 1 into offsets dist + 1 onward.  A throw at
call j lands in the catch clause, which runs destroy_at on the
new_data RawMemory object itself: that frees the block (first free)
without destroying any element still constructed in it, and when the
function then returns, the new_data destructor runs a second time on
the same buffer (second free).  The copies made by the failing
uninitialized_copy_n call are destroyed by that call itself (j - 1 of
them for a prefix throw, j - dist - 1 for a suffix throw); the new
element and any completed prefix copies are never destroyed.  The
exception is swallowed and the function returns data_ + dist into the
old arena with data_ and size_ untouched.  Result: (container state,
returned logical index, log of the new arena). -/
def insertWithReallocE (v : Vec α) (dist : Nat) (a : α)
    (failAt : Option Nat) : Vec α × Nat × RLog :=
  let n := v.data.length
  let tempSize := if n = 0 then 1 else n * 2
  match failAt with
  | some j =>
    if j = 0 then (v, dist, ⟨1, 2, 0, 0⟩)
    else if j ≤ dist then (v, dist, ⟨1, 2, j, j - 1⟩)
    else if j ≤ n then (v, dist, ⟨1, 2, j, j - dist - 1⟩)
    else (⟨v.data.take dist ++ a :: v.data.drop dist, tempSize⟩, dist,
      ⟨1, 0, n + 1, 0⟩)
  | none =>
    (⟨v.data.take dist ++ a :: v.data.drop dist, tempSize⟩, dist,
      ⟨1, 0, n + 1, 0⟩)

/-- Copy assignment with element-operation failures.  If other has
more live elements than this arena can hold, the body builds a full
temporary copy Vector temp(other) and swaps it in; the failure oracle
some k means the copy of source element k throws inside the copy
constructor, before the swap, so the exception propagates with this
container untouched.  Otherwise the body reuses the existing storage
(overwrite the common prefix, then destroy the excess or
copy-construct the rest) and ends with the source sequence in place;
that branch is modelled on its success path, since claim C7 concerns
only the reallocating branch. -/
def copyAssignE (dst src : Vec α) (failAt : Option Nat) :
    Except (Vec α) (Vec α) :=
  if dst.cap < src.data.length then
    match failAt with
    | some k =>
      if k < src.data.length then Except.error dst
      else Except.ok ⟨src.data, src.data.length⟩
    | none => Except.ok ⟨src.data, src.data.length⟩
  else Except.ok ⟨src.data, dst.cap⟩

end Vec

/-- A store of allocated arena blocks, for stating storage aliasing:
blocks is the list of live blocks, a block id is an index into it, and
each block is modelled by the element sequence it holds. -/
structure Store (α : Type) where
  blocks : List (List α)
deriving Repr, DecidableEq

namespace Store

/-- operator new for an arena block: appends a fresh block holding the
given content and returns its id, which is distinct from every
existing id. -/
def alloc (s : Store α) (content : List α) : Store α × Nat :=
  (⟨s.blocks ++ [content]⟩, s.blocks.length)

/-- Reads the element sequence held by block i. -/
def read (s : Store α) (i : Nat) : List α := (s.blocks.get? i).getD []

/-- Writes through block i, replacing the sequence it holds. -/
def write (s : Store α) (i : Nat) (content : List α) : Store α :=
  ⟨s.blocks.set i content⟩

/-- Vector(const Vector other): allocates a fresh arena of other.size
slots and copy-constructs the source elements into it in order, so the
new block holds the same sequence as the source block. -/
def copyConstructH (s : Store α) (srcBlock : Nat) : Store α × Nat :=
  alloc s (read s srcBlock)

end Store

/-! Theorems settling the claims. -/

open Vec

/-- Claim C1 as stated is false for move assignment: the move
assignment operator is Swap(rhs), so after v = move(s) with v
previously holding one element, the moved-from s holds that element
and its size is 1, not 0. -/
theorem c1_counterexample :
    ((Vec.moveAssign (⟨[0], 1⟩ : Vec Nat) ⟨[1], 1⟩).2.size = 0) = False := by
  decide

/-- Claim C1 amended: move construction leaves the source valid and
empty (size 0, capacity 0) and the destination holding exactly the
prior source state; move assignment swaps the two containers in O(1)
without touching elements, so the destination holds the prior source
state while the moved-from source holds the prior destination state,
and is therefore empty exactly when the destination was empty. -/
theorem c1_move_transfer (dst src : Vec α) :
    (Vec.moveConstruct src).1 = src ∧
    (Vec.moveConstruct src).2.data = [] ∧
    (Vec.moveConstruct src).2.cap = 0 ∧
    (Vec.moveAssign dst src).1 = src ∧
    (Vec.moveAssign dst src).2 = dst ∧
    ((Vec.moveAssign dst src).2.size = 0 ↔ dst.size = 0) := by
  simp [Vec.moveConstruct, Vec.moveAssign, Vec.swap, Vec.emptyVec, Vec.size]

/-- Claim C8: Reserve(n) never decreases capacity; with n at most the
current capacity it is a no-op; otherwise the new capacity is at least
n; in every case the size and the element sequence are unchanged. -/
theorem c8_reserve (v : Vec α) (n : Nat) :
    v.cap ≤ (Vec.reserve v n).cap ∧
    (n ≤ v.cap → Vec.reserve v n = v) ∧
    (v.cap < n → n ≤ (Vec.reserve v n).cap) ∧
    (Vec.reserve v n).data = v.data ∧
    (Vec.reserve v n).size = v.size := by
  unfold Vec.reserve
  by_cases h : n ≤ v.cap <;> simp [h, Vec.size]
  · omega

/-- Witness for c8_reserve at a concrete vector and capacity. -/
theorem c8_reserve_witness :
    Vec.reserve (⟨[1, 2], 2⟩ : Vec Nat) 5 = ⟨[1, 2], 5⟩ ∧
    Vec.reserve (⟨[1, 2], 2⟩ : Vec Nat) 1 = ⟨[1, 2], 2⟩ := by
  have h5 := c8_reserve (⟨[1, 2], 2⟩ : Vec Nat) 5
  have h1 := (c8_reserve (⟨[1, 2], 2⟩ : Vec Nat) 1).2.1 (by decide)
  exact ⟨by have h := h5.2.2; revert h; decide, h1⟩

/-- EmplaceBack always appends the value to the live sequence. -/
theorem emplaceBack_data (v : Vec α) (a : α) :
    (Vec.emplaceBack v a).data = v.data ++ [a] := by
  unfold Vec.emplaceBack
  split <;> rfl

/-- EmplaceBack increments the size by one. -/
theorem emplaceBack_size (v : Vec α) (a : α) :
    (Vec.emplaceBack v a).size = v.size + 1 := by
  simp [Vec.size, emplaceBack_data]

/-- EmplaceBack on a full vector computes the new capacity as
(size == 0 ? 1 : size * 2), with size equal to the old capacity. -/
theorem emplaceBack_cap_full (v : Vec α) (a : α)
    (h : v.data.length = v.cap) :
    (Vec.emplaceBack v a).cap = if v.cap = 0 then 1 else v.cap * 2 := by
  simp [Vec.emplaceBack, h]

/-- EmplaceBack with spare room keeps the capacity. -/
theorem emplaceBack_cap_spare (v : Vec α) (a : α)
    (h : v.data.length ≠ v.cap) :
    (Vec.emplaceBack v a).cap = v.cap := by
  simp [Vec.emplaceBack, h]

/-- EmplaceBack appends the value, keeps size ≤ capacity, and keeps
the capacity either 0 or a power of two. -/
theorem emplaceBack_invariant (v : Vec α) (a : α)
    (h1 : v.size ≤ v.cap) (h2 : v.cap = 0 ∨ ∃ k, v.cap = 2 ^ k) :
    (Vec.emplaceBack v a).data = v.data ++ [a] ∧
    (Vec.emplaceBack v a).size ≤ (Vec.emplaceBack v a).cap ∧
    ((Vec.emplaceBack v a).cap = 0 ∨ ∃ k, (Vec.emplaceBack v a).cap = 2 ^ k) := by
  by_cases hfull : v.data.length = v.cap
  · have hsv : v.size = v.cap := hfull
    have hcap := emplaceBack_cap_full v a hfull
    refine ⟨emplaceBack_data v a, ?_, ?_⟩
    · rw [emplaceBack_size, hcap]
      rcases h2 with hz | ⟨k, hk⟩
      · rw [if_pos hz]; omega
      · have hpos : 0 < v.cap := by rw [hk]; positivity
        rw [if_neg (by omega)]; omega
    · rw [hcap]
      rcases h2 with hz | ⟨k, hk⟩
      · rw [if_pos hz]; exact Or.inr ⟨0, rfl⟩
      · have hpos : 0 < v.cap := by rw [hk]; positivity
        rw [if_neg (by omega)]
        exact Or.inr ⟨k + 1, by rw [hk, Nat.pow_succ]⟩
  · have hlt : v.size < v.cap := Nat.lt_of_le_of_ne h1 hfull
    have hcap := emplaceBack_cap_spare v a hfull
    refine ⟨emplaceBack_data v a, ?_, ?_⟩
    · rw [emplaceBack_size, hcap]; omega
    · rw [hcap]; exact h2

/-- Folding EmplaceBack over a list of values from any state
satisfying the growth invariant appends those values and preserves
the invariant. -/
theorem foldl_emplaceBack_invariant (vals : List α) (v : Vec α)
    (h1 : v.size ≤ v.cap) (h2 : v.cap = 0 ∨ ∃ k, v.cap = 2 ^ k) :
    (vals.foldl Vec.emplaceBack v).data = v.data ++ vals ∧
    (vals.foldl Vec.emplaceBack v).size ≤ (vals.foldl Vec.emplaceBack v).cap ∧
    ((vals.foldl Vec.emplaceBack v).cap = 0 ∨
      ∃ k, (vals.foldl Vec.emplaceBack v).cap = 2 ^ k) := by
  induction vals generalizing v with
  | nil => exact ⟨by simp, h1, h2⟩
  | cons a as ih =>
    obtain ⟨hd, hs, hc⟩ := emplaceBack_invariant v a h1 h2
    obtain ⟨hd2, hs2, hc2⟩ := ih (Vec.emplaceBack v a) hs hc
    refine ⟨?_, hs2, hc2⟩
    simp [List.foldl_cons, hd2, hd]

/-- Claim C2: any sequence of N appends from a default-constructed
vector ends with size N and a capacity that is 0 or a power of two;
an append whose pre-state has size equal to capacity sets the new
capacity to 1 when the capacity was 0 and doubles it otherwise, and
an append with spare room leaves the capacity unchanged, so the
capacity only changes on an append with size equal to capacity. -/
theorem c2_append_growth (vals : List α) :
    (Vec.appendAll vals).size = vals.length ∧
    ((Vec.appendAll vals).cap = 0 ∨ ∃ k, (Vec.appendAll vals).cap = 2 ^ k) ∧
    (∀ (v : Vec α) (a : α), v.size = v.cap →
      (Vec.emplaceBack v a).cap = if v.cap = 0 then 1 else 2 * v.cap) ∧
    (∀ (v : Vec α) (a : α), v.size ≠ v.cap →
      (Vec.emplaceBack v a).cap = v.cap) := by
  obtain ⟨hd, _, hc⟩ := foldl_emplaceBack_invariant vals (Vec.emptyVec : Vec α)
    (by simp [Vec.size, Vec.emptyVec]) (Or.inl rfl)
  refine ⟨?_, hc, ?_, ?_⟩
  · have : (Vec.appendAll vals).data = vals := by
      simpa [Vec.emptyVec, Vec.appendAll] using hd
    simp [Vec.size, this]
  · intro v a hfull
    rw [emplaceBack_cap_full v a hfull, Nat.mul_comm]
  · intro v a hne
    exact emplaceBack_cap_spare v a hne

/-- Witness for c2_append_growth: three appends from empty give size 3
and capacity 4, a full vector of capacity 2 doubles to 4 on append,
and an append with spare room keeps the capacity. -/
theorem c2_append_growth_witness :
    (Vec.appendAll ([5, 6, 7] : List Nat)).size = 3 ∧
    (Vec.emplaceBack (⟨[1, 2], 2⟩ : Vec Nat) 9).cap = 4 ∧
    (Vec.emplaceBack (⟨[1], 2⟩ : Vec Nat) 9).cap = 2 := by
  refine ⟨(c2_append_growth ([5, 6, 7] : List Nat)).1, ?_, ?_⟩
  · have h := (c2_append_growth ([] : List Nat)).2.2.1 ⟨[1, 2], 2⟩ 9 (by decide)
    simpa using h
  · exact (c2_append_growth ([] : List Nat)).2.2.2 ⟨[1], 2⟩ 9 (by decide)

/-- Claim C5: a successful Insert or Emplace at any logical position
dist in [0, size] produces the sequence take dist ++ a :: drop dist,
so the size grows by exactly one, the new value sits at index dist,
the prefix before dist and the suffix from dist keep their order, and
the returned position is the final slot dist of the inserted value. -/
theorem c5_emplace_insert (v : Vec α) (dist : Nat) (a : α)
    (h : dist ≤ v.size) :
    (Vec.emplace v dist a).1.data = v.data.take dist ++ a :: v.data.drop dist ∧
    (Vec.emplace v dist a).1.size = v.size + 1 ∧
    (Vec.emplace v dist a).1.data[dist]? = some a ∧
    (Vec.emplace v dist a).1.data.take dist = v.data.take dist ∧
    (Vec.emplace v dist a).1.data.drop (dist + 1) = v.data.drop dist ∧
    (Vec.emplace v dist a).2 = dist := by
  have hlen : (v.data.take dist).length = dist := by
    rw [List.length_take]
    exact Nat.min_eq_left h
  have hdata : (Vec.emplace v dist a).1.data
      = v.data.take dist ++ a :: v.data.drop dist := by
    unfold Vec.emplace Vec.insertWithRealloc Vec.insertWithoutRealloc
    by_cases h1 : v.data.length = v.cap
    · simp [h1]
    · by_cases h2 : dist = v.data.length
      · subst h2; simp [h1]
      · simp [h1, h2]
  have hret : (Vec.emplace v dist a).2 = dist := by
    unfold Vec.emplace Vec.insertWithRealloc Vec.insertWithoutRealloc
    by_cases h1 : v.data.length = v.cap
    · simp [h1]
    · by_cases h2 : dist = v.data.length <;> simp [h1, h2]
  refine ⟨hdata, ?_, ?_, ?_, ?_, hret⟩
  · simp only [Vec.size, hdata, List.length_append, List.length_cons,
      List.length_take, List.length_drop]
    have h1 : dist ≤ v.data.length := h
    have h2 : v.size = v.data.length := rfl
    omega
  · rw [hdata, List.getElem?_append_right (le_of_eq hlen)]
    simp [hlen]
  · rw [hdata, List.take_append_of_le_length (le_of_eq hlen.symm)]
    exact List.take_of_length_le (le_of_eq hlen)
  · rw [hdata, show v.data.take dist ++ a :: v.data.drop dist
      = (v.data.take dist ++ [a]) ++ v.data.drop dist by simp]
    exact List.drop_left' (by simp [hlen])

/-- Witness for c5_emplace_insert: inserting 10 at position 1 of
[1, 2, 3] gives [1, 10, 2, 3] and returns position 1. -/
theorem c5_emplace_insert_witness :
    (Vec.emplace (⟨[1, 2, 3], 4⟩ : Vec Nat) 1 10).1.data = [1, 10, 2, 3] ∧
    (Vec.emplace (⟨[1, 2, 3], 4⟩ : Vec Nat) 1 10).2 = 1 := by
  have h := c5_emplace_insert (⟨[1, 2, 3], 4⟩ : Vec Nat) 1 10 (by decide)
  exact ⟨by simpa using h.1, h.2.2.2.2.2⟩

/-- Claim C6: Erase at a live position dist < size removes exactly the
element at dist, producing take dist ++ drop (dist + 1), so every
later element shifts left by one in the same relative order, size
drops by one and the storage is kept; on an empty vector Erase is a
no-op that returns pos unchanged. -/
theorem c6_erase (v : Vec α) (dist : Nat) :
    (dist < v.size →
      (Vec.erase v dist).1.data = v.data.take dist ++ v.data.drop (dist + 1) ∧
      (Vec.erase v dist).1.size = v.size - 1 ∧
      (Vec.erase v dist).1.data.take dist = v.data.take dist ∧
      (Vec.erase v dist).1.cap = v.cap ∧
      (Vec.erase v dist).2 = dist) ∧
    (v.size = 0 → Vec.erase v dist = (v, dist)) := by
  constructor
  · intro hlt
    have hne : v.data.length ≠ 0 := by
      have : dist < v.data.length := hlt
      omega
    have hdata : (Vec.erase v dist).1.data
        = v.data.take dist ++ v.data.drop (dist + 1) := by
      simp [Vec.erase, hne]
    have hd : dist ≤ v.data.length := Nat.le_of_lt hlt
    have hlen : (v.data.take dist).length = dist := by
      rw [List.length_take]
      exact Nat.min_eq_left hd
    refine ⟨hdata, ?_, ?_, ?_, ?_⟩
    · simp only [Vec.size, hdata, List.length_append, List.length_take,
        List.length_drop]
      have : dist < v.data.length := hlt
      omega
    · rw [hdata, List.take_append_of_le_length (le_of_eq hlen.symm)]
      exact List.take_of_length_le (le_of_eq hlen)
    · simp [Vec.erase, hne]
    · simp [Vec.erase, hne]
  · intro hz
    have hlen : v.data.length = 0 := hz
    simp [Vec.erase, hlen]

/-- Witness for c6_erase: erasing position 0 of [1, 10, 2, 3] gives
[10, 2, 3], and Erase on an empty vector returns its argument. -/
theorem c6_erase_witness :
    (Vec.erase (⟨[1, 10, 2, 3], 4⟩ : Vec Nat) 0).1.data = [10, 2, 3] ∧
    Vec.erase (⟨[], 0⟩ : Vec Nat) 5 = (⟨[], 0⟩, 5) := by
  have h1 := (c6_erase (⟨[1, 10, 2, 3], 4⟩ : Vec Nat) 0).1 (by decide)
  have h2 := (c6_erase (⟨[], 0⟩ : Vec Nat) 5).2 (by decide)
  exact ⟨by simpa using h1.1, h2⟩

/-- Claim C9: Resize(n) sets the size to n; with n below the size it
truncates to the first n elements, destroying exactly size - n
trailing elements while the capacity (hence the storage block) is
unchanged; with n above the size it appends n - size
default-constructed elements after the unchanged prefix. -/
theorem c9_resize (v : Vec α) (d : α) (n : Nat) (hwf : v.size ≤ v.cap) :
    (Vec.resize v d n).size = n ∧
    (n < v.size →
      (Vec.resize v d n).data = v.data.take n ∧
      (Vec.resize v d n).cap = v.cap) ∧
    (v.size ≤ n →
      (Vec.resize v d n).data = v.data ++ List.replicate (n - v.size) d) := by
  have hrd : (Vec.reserve v n).data = v.data := by
    unfold Vec.reserve
    split <;> rfl
  have hres : Vec.resize v d n =
      if n < v.data.length then ⟨v.data.take n, (Vec.reserve v n).cap⟩
      else ⟨v.data ++ List.replicate (n - v.data.length) d,
        (Vec.reserve v n).cap⟩ := by
    simp only [Vec.resize, hrd]
  by_cases hlt : n < v.data.length
  · have hcapn : (Vec.reserve v n).cap = v.cap := by
      unfold Vec.reserve
      rw [if_pos ?_]
      have h1 : v.data.length ≤ v.cap := hwf
      omega
    rw [hres, if_pos hlt]
    refine ⟨?_, fun _ => ⟨rfl, hcapn⟩, fun hge => ?_⟩
    · simp only [Vec.size, List.length_take]
      omega
    · have : v.data.length ≤ n := hge
      omega
  · rw [hres, if_neg hlt]
    refine ⟨?_, fun hgt => ?_, fun _ => rfl⟩
    · simp only [Vec.size, List.length_append, List.length_replicate]
      omega
    · have : n < v.data.length := hgt
      omega

/-- Witness for c9_resize: [1, 2, 3] with capacity 4 resized to 1
becomes [1] with capacity 4, and resized to 5 becomes
[1, 2, 3, 0, 0] with size 5. -/
theorem c9_resize_witness :
    (Vec.resize (⟨[1, 2, 3], 4⟩ : Vec Nat) 0 1).data = [1] ∧
    (Vec.resize (⟨[1, 2, 3], 4⟩ : Vec Nat) 0 1).cap = 4 ∧
    (Vec.resize (⟨[1, 2, 3], 4⟩ : Vec Nat) 0 5).data = [1, 2, 3, 0, 0] ∧
    (Vec.resize (⟨[1, 2, 3], 4⟩ : Vec Nat) 0 5).size = 5 := by
  have h1 := (c9_resize (⟨[1, 2, 3], 4⟩ : Vec Nat) 0 1 (by decide)).2.1
    (by decide)
  have h2 := (c9_resize (⟨[1, 2, 3], 4⟩ : Vec Nat) 0 5 (by decide)).2.2
    (by decide)
  have h3 := (c9_resize (⟨[1, 2, 3], 4⟩ : Vec Nat) 0 5 (by decide)).1
  exact ⟨by simpa using h1.1, h1.2, by simpa using h2, h3⟩

/-- Claim C10: Reserve(n) with n above the current capacity allocates
an arena of exactly n slots (never more), and Resize(n) with n above
the current capacity, which begins with Reserve(n), therefore also
sets the capacity to exactly n with no doubling step. -/
theorem c10_reserve_exact (v : Vec α) (d : α) (n : Nat) (h : v.cap < n) :
    (Vec.reserve v n).cap = n ∧ (Vec.resize v d n).cap = n := by
  have hn : ¬ n ≤ v.cap := by omega
  constructor
  · simp [Vec.reserve, hn]
  · unfold Vec.resize Vec.reserve
    simp only [hn, if_false]
    by_cases h2 : n < v.data.length <;> simp [h2]

/-- Witness for c10_reserve_exact at a concrete vector. -/
theorem c10_reserve_exact_witness :
    (Vec.reserve (⟨[3], 1⟩ : Vec Nat) 7).cap = 7 ∧
    (Vec.resize (⟨[3], 1⟩ : Vec Nat) 0 7).cap = 7 :=
  c10_reserve_exact (⟨[3], 1⟩ : Vec Nat) 0 7 (by decide)

/-- Claim C3 is contradicted by append-on-full: EmplaceBack on the
full vector [7] (size 1, capacity 1) with a copy-transferred element
type first constructs the new element at offset 1 of the new arena and
only then copies the old elements, with no try block; when the copy of
old element 0 throws (failure oracle some 1), the exception unwinds
EmplaceBack, the members and element sequence are restored (the error
state equals the pre-call state) and the block is freed once, but the
already constructed new element is destroyed by nobody: the log shows
one element construction in the new arena and zero destructions, so
its destructor never runs and whatever it owns is leaked, contrary to
the no-leak part of the claim. -/
theorem c3_emplaceBack_leak :
    Vec.emplaceBackE (⟨[7], 1⟩ : Vec Nat) 9 (some 1) =
      Except.error ((⟨[7], 1⟩ : Vec Nat), ⟨1, 1, 1, 0⟩) ∧
    (⟨1, 1, 1, 0⟩ : RLog).frees = (⟨1, 1, 1, 0⟩ : RLog).allocs ∧
    (⟨1, 1, 1, 0⟩ : RLog).dtors + 1 = (⟨1, 1, 1, 0⟩ : RLog).ctors :=
  ⟨rfl, rfl, rfl⟩

/-- Reserve itself does give the strong guarantee for a
copy-transferred element type: any failing copy during the transfer
leaves the container exactly in its pre-call state with the new arena
fully torn down (frees = allocs and dtors = ctors). -/
theorem reserveE_strong (v : Vec α) (n : Nat) (failAt : Option Nat)
    (w : Vec α) (log : RLog)
    (h : Vec.reserveE v n failAt = Except.error (w, log)) :
    w = v ∧ log.frees = log.allocs ∧ log.dtors = log.ctors := by
  unfold Vec.reserveE at h
  by_cases h1 : n ≤ v.cap
  · rw [if_pos h1] at h
    exact absurd h (by simp)
  · rw [if_neg h1] at h
    match failAt with
    | none => exact absurd h (by simp)
    | some k =>
      simp only at h
      by_cases h2 : k < v.data.length
      · rw [if_pos h2] at h
        obtain ⟨hw, hl⟩ := Prod.mk.injEq .. ▸ (Except.error.injEq .. ▸ h)
        exact ⟨hw.symm, by rw [← hl], by rw [← hl]⟩
      · rw [if_neg h2] at h
        exact absurd h (by simp)

/-- Witness for reserveE_strong at a concrete failing transfer. -/
theorem reserveE_strong_witness :
    Vec.reserveE (⟨[4, 5], 2⟩ : Vec Nat) 3 (some 1) =
      Except.error ((⟨[4, 5], 2⟩ : Vec Nat), ⟨1, 1, 1, 1⟩) ∧
    ((⟨[4, 5], 2⟩ : Vec Nat) = ⟨[4, 5], 2⟩ ∧
      (⟨1, 1, 1, 1⟩ : RLog).frees = (⟨1, 1, 1, 1⟩ : RLog).allocs ∧
      (⟨1, 1, 1, 1⟩ : RLog).dtors = (⟨1, 1, 1, 1⟩ : RLog).ctors) :=
  ⟨rfl, reserveE_strong (⟨[4, 5], 2⟩ : Vec Nat) 3 (some 1) _ _ rfl⟩

/-- Claim C4 is contradicted by the catch clause of InsertWithRealloc:
on the full vector [5] (size 1, capacity 1), emplacing 9 at position 0
builds the new element at offset 0 of the new arena and then copies
old element 0 to offset 1; when that copy throws (failure oracle
some 1), the catch runs destroy_at on the new_data RawMemory object
itself, which frees the raw block without destroying the new element
still constructed in it, and when the function returns, the new_data
destructor frees the same block a second time.  The old arena and size
remain the container state and position 0 is returned (the exception
is swallowed), but the new arena is not torn down as claimed: the log
records two frees of a block allocated once (a double free) and one
element construction against zero destructions (a leaked destructor
call). -/
theorem c4_insert_realloc_double_free :
    Vec.insertWithReallocE (⟨[5], 1⟩ : Vec Nat) 0 9 (some 1) =
      ((⟨[5], 1⟩ : Vec Nat), 0, ⟨1, 2, 1, 0⟩) ∧
    (⟨1, 2, 1, 0⟩ : RLog).allocs = 1 ∧
    (⟨1, 2, 1, 0⟩ : RLog).frees = 2 ∧
    (⟨1, 2, 1, 0⟩ : RLog).dtors + 1 = (⟨1, 2, 1, 0⟩ : RLog).ctors :=
  ⟨rfl, rfl, rfl, rfl⟩

/-- Claim C7: copy construction allocates a fresh arena block holding
the same element sequence as the source block; the fresh id differs
from the source id, writing through the copy leaves the source
sequence unchanged and writing through the source leaves the copy
holding the original sequence, so there is no storage aliasing; and
copy assignment from a source with more live elements than the target
capacity builds the temporary copy before the swap, so a copy failing
at any element leaves the target exactly unchanged. -/
theorem c7_copy_independent (s : Store α) (srcBlock : Nat)
    (hb : srcBlock < s.blocks.length) (dst src : Vec α) (k : Nat)
    (h2 : dst.cap < src.size) (h3 : k < src.size) :
    Store.read (Store.copyConstructH s srcBlock).1
        (Store.copyConstructH s srcBlock).2 = Store.read s srcBlock ∧
    (Store.copyConstructH s srcBlock).2 ≠ srcBlock ∧
    (∀ c, Store.read
        (Store.write (Store.copyConstructH s srcBlock).1
          (Store.copyConstructH s srcBlock).2 c) srcBlock
      = Store.read s srcBlock) ∧
    (∀ c, Store.read
        (Store.write (Store.copyConstructH s srcBlock).1 srcBlock c)
          (Store.copyConstructH s srcBlock).2
      = Store.read s srcBlock) ∧
    Vec.copyAssignE dst src (some k) = Except.error dst := by
  have hne : s.blocks.length ≠ srcBlock := by omega
  refine ⟨?_, hne, ?_, ?_, ?_⟩
  · simp [Store.copyConstructH, Store.alloc, Store.read,
      List.getElem?_concat_length]
  · intro c
    simp only [Store.copyConstructH, Store.alloc, Store.write, Store.read,
      List.get?_eq_getElem?]
    rw [List.getElem?_set_ne hne, List.getElem?_append_left hb]
  · intro c
    simp only [Store.copyConstructH, Store.alloc, Store.write, Store.read,
      List.get?_eq_getElem?]
    rw [List.getElem?_set_ne (Ne.symm hne), List.getElem?_concat_length]
    simp [Store.read, List.get?_eq_getElem?]
  · have h2a : dst.cap < src.data.length := h2
    have h3a : k < src.data.length := h3
    simp [Vec.copyAssignE, h2a, h3a]

/-- Witness for c7_copy_independent: copying the single block [1, 2]
yields a fresh block reading [1, 2], and copy assignment into a
capacity-1 target from a 2-element source fails back to the untouched
target. -/
theorem c7_copy_independent_witness :
    Store.read (Store.copyConstructH (⟨[[1, 2]]⟩ : Store Nat) 0).1
      (Store.copyConstructH (⟨[[1, 2]]⟩ : Store Nat) 0).2 = [1, 2] ∧
    Vec.copyAssignE (⟨[9], 1⟩ : Vec Nat) ⟨[4, 5], 2⟩ (some 0) =
      Except.error ⟨[9], 1⟩ := by
  have h := c7_copy_independent (⟨[[1, 2]]⟩ : Store Nat) 0 (by decide)
    (⟨[9], 1⟩ : Vec Nat) ⟨[4, 5], 2⟩ 0 (by decide) (by decide)
  exact ⟨h.1, h.2.2.2.2⟩

end VectorSpec
